import Mathlib

/-!
Verification of the lopocs greyhound module (src/lopocs/greyhound.py).

The Python code is shallowly embedded: pure computations become Lean
functions, the PostgreSQL point-cloud store becomes an explicit function
parameter, Python exceptions become Except, Python floats become ℚ, and
Python unbounded ints become ℤ/ℕ.  The per-node store queries issued by
the hierarchy engine are additionally recorded in a log component so that
statements about "which nodes are queried" can be made.
-/

/-- Constant from greyhound.py line 19: LOADER_GREYHOUND_MIN_DEPTH = 8. -/
def LOADER_GREYHOUND_MIN_DEPTH : ℤ := 8

/-- Python truthiness of an optional integer (None and 0 are falsy).
Used for the tests on session.lopocstable.max_points_per_patch. -/
def intOptTruthy : Option ℤ → Bool
  | none => false
  | some m => m != 0

/-- Rank range computed by sql_hierarchy (greyhound.py lines 219-239):
if max_points_per_patch is truthy the range is (0, maxpp); otherwise
beg is accumulated as sum of 4^i for i in range(0, lod), end as the sum
for i in range(0, lod + 1), and the range is (beg, end - beg).
Python range(0, k) for a possibly negative k is modelled by
List.range k.toNat. -/
def sql_hierarchy_range (maxpp_patch : Option ℤ) (lod : ℤ) : ℤ × ℤ :=
  if intOptTruthy maxpp_patch then
    (0, maxpp_patch.getD 0)
  else
    let beg := (List.range lod.toNat).foldl (fun b i => b + (4 : ℤ) ^ i) 0
    let e := (List.range (lod + 1).toNat).foldl (fun b i => b + (4 : ℤ) ^ i) 0
    (beg, e - beg)

/-- Rank range computed by get_points_query (greyhound.py lines 280-300);
the code is textually the same computation as in sql_hierarchy. -/
def get_points_query_range (maxppp : Option ℤ) (lod : ℤ) : ℤ × ℤ :=
  if intOptTruthy maxppp then
    (0, maxppp.getD 0)
  else
    let beg := (List.range lod.toNat).foldl (fun b i => b + (4 : ℤ) ^ i) 0
    let e := (List.range (lod + 1).toNat).foldl (fun b i => b + (4 : ℤ) ^ i) 0
    (beg, e - beg)

/-- The geometric-sum accumulator of the two range functions. -/
def rangeGeomSum (k : ℕ) : ℤ :=
  (List.range k).foldl (fun b i => b + (4 : ℤ) ^ i) 0

lemma rangeGeomSum_succ (k : ℕ) :
    rangeGeomSum (k + 1) = rangeGeomSum k + (4 : ℤ) ^ k := by
  unfold rangeGeomSum
  rw [List.range_succ, List.foldl_append]
  rfl

lemma three_mul_rangeGeomSum (k : ℕ) :
    3 * rangeGeomSum k = 4 ^ k - 1 := by
  induction k with
  | zero => rfl
  | succ n ih =>
    rw [rangeGeomSum_succ, pow_succ]
    ring_nf
    ring_nf at ih
    omega

lemma rangeGeomSum_eq (k : ℕ) :
    rangeGeomSum k = ((4 : ℤ) ^ k - 1) / 3 := by
  have h := three_mul_rangeGeomSum k
  omega

lemma sql_hierarchy_range_none (d : ℕ) :
    sql_hierarchy_range none (d : ℤ) = (((4 : ℤ) ^ d - 1) / 3, 4 ^ d) := by
  unfold sql_hierarchy_range
  simp only [intOptTruthy, Bool.false_eq_true, if_false]
  have h1 : ((d : ℤ)).toNat = d := Int.toNat_natCast d
  have h2 : ((d : ℤ) + 1).toNat = d + 1 := by omega
  rw [h1, h2]
  show (rangeGeomSum d, rangeGeomSum (d + 1) - rangeGeomSum d) = _
  have h3 := three_mul_rangeGeomSum d
  have h4 := three_mul_rangeGeomSum (d + 1)
  have h5 : (4 : ℤ) ^ (d + 1) = 4 * 4 ^ d := by rw [pow_succ]; ring
  rw [Prod.mk.injEq]
  constructor
  · rw [rangeGeomSum_eq]
  · omega

lemma get_points_query_range_none (d : ℕ) :
    get_points_query_range none (d : ℤ) = (((4 : ℤ) ^ d - 1) / 3, 4 ^ d) := by
  have h : get_points_query_range none (d : ℤ) = sql_hierarchy_range none (d : ℤ) := rfl
  rw [h, sql_hierarchy_range_none]

/-- C1: for every node query built by sql_hierarchy or get_points_query,
if the dataset declares max_points_per_patch = M (a truthy, hence positive,
cap), the rank range is range_min = 0 and range_max = M at every LoD;
otherwise, for the node's LoD d ≥ 0, range_min = (4^d - 1)/3
(the sum of 4^i for i = 0..d-1) and range_max = 4^d. -/
theorem sql_rank_ranges (M : ℤ) (hM : 0 < M) (lod : ℤ) (d : ℕ) :
    sql_hierarchy_range (some M) lod = (0, M) ∧
    get_points_query_range (some M) lod = (0, M) ∧
    sql_hierarchy_range none (d : ℤ) = (((4 : ℤ) ^ d - 1) / 3, 4 ^ d) ∧
    get_points_query_range none (d : ℤ) = (((4 : ℤ) ^ d - 1) / 3, 4 ^ d) := by
  refine ⟨?_, ?_, sql_hierarchy_range_none d, get_points_query_range_none d⟩
  · unfold sql_hierarchy_range
    have h : intOptTruthy (some M) = true := by
      simp [intOptTruthy]; omega
    rw [h]
    rfl
  · unfold get_points_query_range
    have h : intOptTruthy (some M) = true := by
      simp [intOptTruthy]; omega
    rw [h]
    rfl

/-- Witness for sql_rank_ranges at M = 5, lod = 3, d = 2. -/
theorem sql_rank_ranges_witness :
    sql_hierarchy_range (some 5) 3 = (0, 5) ∧
    get_points_query_range (some 5) 3 = (0, 5) ∧
    sql_hierarchy_range none ((2 : ℕ) : ℤ) = (((4 : ℤ) ^ (2 : ℕ) - 1) / 3, 4 ^ (2 : ℕ)) ∧
    get_points_query_range none ((2 : ℕ) : ℤ) = (((4 : ℤ) ^ (2 : ℕ) - 1) / 3, 4 ^ (2 : ℕ)) :=
  sql_rank_ranges 5 (by norm_num) 3 2

/-- An axis-aligned 3D bounding box [x0, y0, z0, x1, y1, z1], the list
shape bbox[0..5] used throughout greyhound.py.  Python floats are
modelled as ℚ. -/
structure BBox where
  xmin : ℚ
  ymin : ℚ
  zmin : ℚ
  xmax : ℚ
  ymax : ℚ
  zmax : ℚ
deriving DecidableEq, Repr

/-- width = bbox[3] - bbox[0] (greyhound.py line 426/478). -/
def bwidth (b : BBox) : ℚ := b.xmax - b.xmin

/-- length = bbox[4] - bbox[1] (greyhound.py line 427/479). -/
def blength (b : BBox) : ℚ := b.ymax - b.ymin

/-- height = bbox[5] - bbox[2] (greyhound.py line 428/480). -/
def bheight (b : BBox) : ℚ := b.zmax - b.zmin

/-- up = bbox[5] (greyhound.py line 430/482). -/
def bup (b : BBox) : ℚ := b.zmax

/-- middle = up - height / 2 (greyhound.py line 431/483). -/
def bmiddle (b : BBox) : ℚ := bup b - bheight b / 2

/-- down = bbox[2] (greyhound.py line 432/484). -/
def bdown (b : BBox) : ℚ := b.zmin

/-- bbox_nwd = [x, y + length/2, down, x + width/2, y + length, middle]
(greyhound.py line 438/490). -/
def bbox_nwd (b : BBox) : BBox :=
  ⟨b.xmin, b.ymin + blength b / 2, bdown b,
   b.xmin + bwidth b / 2, b.ymin + blength b, bmiddle b⟩

/-- bbox_nwu = [x, y + length/2, middle, x + width/2, y + length, up]
(greyhound.py line 439/496). -/
def bbox_nwu (b : BBox) : BBox :=
  ⟨b.xmin, b.ymin + blength b / 2, bmiddle b,
   b.xmin + bwidth b / 2, b.ymin + blength b, bup b⟩

/-- bbox_ned = [x + width/2, y + length/2, down, x + width, y + length, middle]
(greyhound.py line 440/502). -/
def bbox_ned (b : BBox) : BBox :=
  ⟨b.xmin + bwidth b / 2, b.ymin + blength b / 2, bdown b,
   b.xmin + bwidth b, b.ymin + blength b, bmiddle b⟩

/-- bbox_neu = [x + width/2, y + length/2, middle, x + width, y + length, up]
(greyhound.py line 441/508). -/
def bbox_neu (b : BBox) : BBox :=
  ⟨b.xmin + bwidth b / 2, b.ymin + blength b / 2, bmiddle b,
   b.xmin + bwidth b, b.ymin + blength b, bup b⟩

/-- bbox_swd = [x, y, down, x + width/2, y + length/2, middle]
(greyhound.py line 442/514). -/
def bbox_swd (b : BBox) : BBox :=
  ⟨b.xmin, b.ymin, bdown b,
   b.xmin + bwidth b / 2, b.ymin + blength b / 2, bmiddle b⟩

/-- bbox_swu = [x, y, middle, x + width/2, y + length/2, up]
(greyhound.py line 443/520). -/
def bbox_swu (b : BBox) : BBox :=
  ⟨b.xmin, b.ymin, bmiddle b,
   b.xmin + bwidth b / 2, b.ymin + blength b / 2, bup b⟩

/-- bbox_sed = [x + width/2, y, down, x + width, y + length/2, middle]
(greyhound.py line 444/526). -/
def bbox_sed (b : BBox) : BBox :=
  ⟨b.xmin + bwidth b / 2, b.ymin, bdown b,
   b.xmin + bwidth b, b.ymin + blength b / 2, bmiddle b⟩

/-- bbox_seu = [x + width/2, y, middle, x + width, y + length/2, up]
(greyhound.py line 445/532). -/
def bbox_seu (b : BBox) : BBox :=
  ⟨b.xmin + bwidth b / 2, b.ymin, bmiddle b,
   b.xmin + bwidth b, b.ymin + blength b / 2, bup b⟩

/-- Octant codes of a hierarchy node. -/
inductive Octant
  | nwd | nwu | ned | neu | swd | swu | sed | seu
deriving DecidableEq, Repr

/-- Child bboxes in the order build_hierarchy_from_pg_single computes and
attaches them (greyhound.py lines 489-535). -/
def childBoxesSingle (b : BBox) : List (Octant × BBox) :=
  [(Octant.nwd, bbox_nwd b), (Octant.nwu, bbox_nwu b),
   (Octant.ned, bbox_ned b), (Octant.neu, bbox_neu b),
   (Octant.swd, bbox_swd b), (Octant.swu, bbox_swu b),
   (Octant.sed, bbox_sed b), (Octant.seu, bbox_seu b)]

/-- Child bboxes in the order build_hierarchy_from_pg submits them to the
thread pool (greyhound.py lines 438-445 and 450-457). -/
def childBoxesRoot (b : BBox) : List (Octant × BBox) :=
  [(Octant.nwd, bbox_nwd b), (Octant.nwu, bbox_nwu b),
   (Octant.ned, bbox_ned b), (Octant.neu, bbox_neu b),
   (Octant.swd, bbox_swd b), (Octant.swu, bbox_swu b),
   (Octant.sed, bbox_sed b), (Octant.seu, bbox_seu b)]

/-- Closed membership of a point in a bbox. -/
abbrev memB (p : ℚ × ℚ × ℚ) (b : BBox) : Prop :=
  b.xmin ≤ p.1 ∧ p.1 ≤ b.xmax ∧
  b.ymin ≤ p.2.1 ∧ p.2.1 ≤ b.ymax ∧
  b.zmin ≤ p.2.2 ∧ p.2.2 ≤ b.zmax

/-- Open-interior membership of a point in a bbox. -/
abbrev intMemB (p : ℚ × ℚ × ℚ) (b : BBox) : Prop :=
  b.xmin < p.1 ∧ p.1 < b.xmax ∧
  b.ymin < p.2.1 ∧ p.2.1 < b.ymax ∧
  b.zmin < p.2.2 ∧ p.2.2 < b.zmax

/-- A hierarchy node as built by the engine: the Python dict with an
optional key n (point count) and child subtrees keyed by octant code.
Children are kept in insertion order, which is the same fixed order in
both build functions, so structural equality coincides with dict
equality. -/
inductive Hierarchy where
  | mk (n : Option ℕ) (children : List (Octant × Hierarchy))

/-- The n entry of a hierarchy dict (none when the key is absent). -/
def Hierarchy.n : Hierarchy → Option ℕ
  | .mk n _ => n

/-- The child entries of a hierarchy dict. -/
def Hierarchy.children : Hierarchy → List (Octant × Hierarchy)
  | .mk _ c => c

/-- Python truthiness of the hierarchy dict: an empty dict (no n, no
children) is falsy.  This is the test `if h_nwd:` etc. in
build_hierarchy_from_pg_single. -/
def Hierarchy.isEmpty (h : Hierarchy) : Bool :=
  h.n.isNone && h.children.isEmpty

/-- The empty hierarchy dict. -/
def emptyHierarchy : Hierarchy := .mk none []

/-- The backing store, abstracting session.query(sql_hierarchy(...))[0][0]:
given the node bbox and LoD (the only request data that vary per node),
it either raises (Except.error, a psycopg2/query error), returns SQL NULL
(ok none, empty spatial intersection) or returns a pcpatch WKB byte
string (ok (some bytes)). -/
abbrev Store : Type := BBox → ℤ → Except Unit (Option (List ℕ))

/-- Log of the store queries issued, in issue order: (bbox, lod) pairs. -/
abbrev QueryLog : Type := List (BBox × ℤ)

/-- Modelled from the spec: npoints_from_wkb_pcpatch (lopocs/utils.py is
not part of the sources).  Per spec section 3 / 4.2 the patch layout is
byte 0 endianness flag (1 = little-endian), bytes 1..4 type tag, bytes
5..8 pcid, bytes 9..12 point count (unsigned 32-bit in patch
endianness); npoints reads the 4 count bytes honouring the flag. -/
def npoints_from_wkb_pcpatch (wkb : List ℕ) : ℕ :=
  let b := fun i => wkb.getD i 0
  if b 0 = 1 then
    b 9 + 256 * b 10 + 256 ^ 2 * b 11 + 256 ^ 3 * b 12
  else
    b 12 + 256 * b 11 + 256 ^ 2 * b 10 + 256 ^ 3 * b 9

/-- Python truthiness of the query result pcpatch_wkb: None and an empty
byte string are falsy. -/
def wkbTruthy : Option (List ℕ) → Bool
  | none => false
  | some w => !w.isEmpty

/-- Sequential child processing of build_hierarchy_from_pg_single
(greyhound.py lines 489-535): for each child bbox in order, recurse via
f; a raised exception propagates at once (later siblings never run, so
their queries are not logged); an empty child dict is not attached. -/
def buildChildrenSeq (f : BBox → Except Unit Hierarchy × QueryLog) :
    List (Octant × BBox) → Except Unit (List (Octant × Hierarchy)) × QueryLog
  | [] => (.ok [], [])
  | (o, cb) :: rest =>
    match f cb with
    | (.error _, rlog) => (.error (), rlog)
    | (.ok h, rlog) =>
      match buildChildrenSeq f rest with
      | (.error _, rl2) => (.error (), rlog ++ rl2)
      | (.ok hs, rl2) =>
        ((.ok ((if h.isEmpty then [] else [(o, h)]) ++ hs)), rlog ++ rl2)

/-- Parallel child processing of build_hierarchy_from_pg (greyhound.py
lines 447-460): all 8 futures run (so every child logs its queries), the
results are collected in submission order, the first raised exception
propagates when the results are gathered, and child dicts are attached
unconditionally (there is no emptiness test at the root level). -/
def buildChildrenPar (f : BBox → Except Unit Hierarchy × QueryLog) :
    List (Octant × BBox) → Except Unit (List (Octant × Hierarchy)) × QueryLog
  | [] => (.ok [], [])
  | (o, cb) :: rest =>
    match f cb, buildChildrenPar f rest with
    | (.error _, rlog), (_, rl2) => (.error (), rlog ++ rl2)
    | (.ok _, rlog), (.error _, rl2) => (.error (), rlog ++ rl2)
    | (.ok h, rlog), (.ok hs, rl2) => (.ok ((o, h) :: hs), rlog ++ rl2)

/-- Recursion core of build_hierarchy_from_pg_single (greyhound.py lines
465-537), with an explicit fuel argument as termination measure.  The
wrapper passes fuel = (lod_max + 1 - lod).toNat, which the recursion
never exhausts (the fuel-0 branch below is only reachable when the
recursion guard lod + 1 <= lod_max holds but the fuel is out, which the
wrapper's choice of fuel excludes).  Each call first issues the store
query for its node (logged), propagates a query exception, stores n when
lod <= lod_max and the returned patch is truthy, then, after lod += 1,
recurses into the 8 child bboxes when lod <= lod_max, attaching each
child dict only if it is non-empty. -/
def buildSingleL (store : Store) : ℕ → ℤ → ℤ → BBox →
    Except Unit Hierarchy × QueryLog
  | fuel, lod, lod_max, bbox =>
    match store bbox lod with
    | .error _ => (.error (), [(bbox, lod)])
    | .ok pcpatch_wkb =>
      let n : Option ℕ :=
        if lod ≤ lod_max ∧ wkbTruthy pcpatch_wkb then
          some (npoints_from_wkb_pcpatch (pcpatch_wkb.getD []))
        else none
      if lod + 1 ≤ lod_max then
        match fuel with
        | 0 => (.error (), [(bbox, lod)])
        | fuel' + 1 =>
          match buildChildrenSeq
              (fun cb => buildSingleL store fuel' (lod + 1) lod_max cb)
              (childBoxesSingle bbox) with
          | (.error _, clog) => (.error (), (bbox, lod) :: clog)
          | (.ok cs, clog) => (.ok (.mk n cs), (bbox, lod) :: clog)
      else (.ok (.mk n []), [(bbox, lod)])

/-- build_hierarchy_from_pg_single (greyhound.py lines 465-537): the
fuel is fixed at (lod_max + 1 - lod).toNat, enough for the guarded
recursion. -/
def build_hierarchy_from_pg_single (store : Store) (lod lod_max : ℤ)
    (bbox : BBox) : Except Unit Hierarchy × QueryLog :=
  buildSingleL store (lod_max + 1 - lod).toNat lod lod_max bbox

/-- build_hierarchy_from_pg (greyhound.py lines 410-462): the root node
issues its own query, stores n under the same conditions, and then, after
lod += 1, expands the 8 children in parallel, attaching every child
result unconditionally.  Each child runs
build_hierarchy_from_pg_single. -/
def build_hierarchy_from_pg (store : Store) (lod lod_max : ℤ)
    (bbox : BBox) : Except Unit Hierarchy × QueryLog :=
  match store bbox lod with
  | .error _ => (.error (), [(bbox, lod)])
  | .ok pcpatch_wkb =>
    let n : Option ℕ :=
      if lod ≤ lod_max ∧ wkbTruthy pcpatch_wkb then
        some (npoints_from_wkb_pcpatch (pcpatch_wkb.getD []))
      else none
    if lod + 1 ≤ lod_max then
      match buildChildrenPar
          (fun cb => build_hierarchy_from_pg_single store (lod + 1) lod_max cb)
          (childBoxesRoot bbox) with
      | (.error _, clog) => (.error (), (bbox, lod) :: clog)
      | (.ok cs, clog) => (.ok (.mk n cs), (bbox, lod) :: clog)
    else (.ok (.mk n []), [(bbox, lod)])

set_option maxHeartbeats 2000000 in
/-- C2: the 8 child bboxes that build_hierarchy_from_pg (lines 438-445)
and build_hierarchy_from_pg_single (lines 490-533) compute for a parent
bbox with ordered corners split the parent at the geometric midpoint of
each axis: the two functions compute the same boxes, each child bbox is
contained in the parent, the children cover the parent exactly, and the
children's interiors are pairwise disjoint. -/
theorem child_boxes_tile (b : BBox)
    (hx : b.xmin ≤ b.xmax) (hy : b.ymin ≤ b.ymax) (hz : b.zmin ≤ b.zmax) :
    childBoxesRoot b = childBoxesSingle b ∧
    (∀ o c, (o, c) ∈ childBoxesSingle b → ∀ p, memB p c → memB p b) ∧
    (∀ p, memB p b → ∃ o c, (o, c) ∈ childBoxesSingle b ∧ memB p c) ∧
    (∀ o₁ c₁ o₂ c₂, (o₁, c₁) ∈ childBoxesSingle b →
      (o₂, c₂) ∈ childBoxesSingle b → o₁ ≠ o₂ →
      ∀ p, ¬(intMemB p c₁ ∧ intMemB p c₂)) := by
  refine ⟨rfl, ?_, ?_, ?_⟩
  · -- containment of each child in the parent
    intro o c hm p hp
    simp only [childBoxesSingle, List.mem_cons, List.not_mem_nil, or_false,
      Prod.mk.injEq] at hm
    rcases hm with ⟨rfl, rfl⟩ | ⟨rfl, rfl⟩ | ⟨rfl, rfl⟩ | ⟨rfl, rfl⟩ | hrem
    all_goals try rcases hrem with ⟨rfl, rfl⟩ | ⟨rfl, rfl⟩ | ⟨rfl, rfl⟩ | ⟨rfl, rfl⟩
    all_goals
      (obtain ⟨h1, h2, h3, h4, h5, h6⟩ := hp
       simp only [bbox_nwd, bbox_nwu, bbox_ned, bbox_neu, bbox_swd, bbox_swu,
         bbox_sed, bbox_seu, bwidth, blength, bheight, bup, bmiddle, bdown]
         at h1 h2 h3 h4 h5 h6
       exact ⟨by linarith, by linarith, by linarith, by linarith,
         by linarith, by linarith⟩)
  · -- the children cover the parent
    intro p hp
    obtain ⟨p1, p2, p3, p4, p5, p6⟩ := hp
    rcases le_total p.1 (b.xmin + bwidth b / 2) with hxc | hxc <;>
    rcases le_total p.2.1 (b.ymin + blength b / 2) with hyc | hyc <;>
    rcases le_total p.2.2 (bmiddle b) with hzc | hzc
    · refine ⟨Octant.swd, bbox_swd b, by simp [childBoxesSingle], ?_⟩
      simp only [bbox_swd, bwidth, blength, bheight, bup, bmiddle, bdown] at *
      exact ⟨by linarith, by linarith, by linarith, by linarith,
        by linarith, by linarith⟩
    · refine ⟨Octant.swu, bbox_swu b, by simp [childBoxesSingle], ?_⟩
      simp only [bbox_swu, bwidth, blength, bheight, bup, bmiddle, bdown] at *
      exact ⟨by linarith, by linarith, by linarith, by linarith,
        by linarith, by linarith⟩
    · refine ⟨Octant.nwd, bbox_nwd b, by simp [childBoxesSingle], ?_⟩
      simp only [bbox_nwd, bwidth, blength, bheight, bup, bmiddle, bdown] at *
      exact ⟨by linarith, by linarith, by linarith, by linarith,
        by linarith, by linarith⟩
    · refine ⟨Octant.nwu, bbox_nwu b, by simp [childBoxesSingle], ?_⟩
      simp only [bbox_nwu, bwidth, blength, bheight, bup, bmiddle, bdown] at *
      exact ⟨by linarith, by linarith, by linarith, by linarith,
        by linarith, by linarith⟩
    · refine ⟨Octant.sed, bbox_sed b, by simp [childBoxesSingle], ?_⟩
      simp only [bbox_sed, bwidth, blength, bheight, bup, bmiddle, bdown] at *
      exact ⟨by linarith, by linarith, by linarith, by linarith,
        by linarith, by linarith⟩
    · refine ⟨Octant.seu, bbox_seu b, by simp [childBoxesSingle], ?_⟩
      simp only [bbox_seu, bwidth, blength, bheight, bup, bmiddle, bdown] at *
      exact ⟨by linarith, by linarith, by linarith, by linarith,
        by linarith, by linarith⟩
    · refine ⟨Octant.ned, bbox_ned b, by simp [childBoxesSingle], ?_⟩
      simp only [bbox_ned, bwidth, blength, bheight, bup, bmiddle, bdown] at *
      exact ⟨by linarith, by linarith, by linarith, by linarith,
        by linarith, by linarith⟩
    · refine ⟨Octant.neu, bbox_neu b, by simp [childBoxesSingle], ?_⟩
      simp only [bbox_neu, bwidth, blength, bheight, bup, bmiddle, bdown] at *
      exact ⟨by linarith, by linarith, by linarith, by linarith,
        by linarith, by linarith⟩
  · -- pairwise disjoint interiors
    intro o1 c1 o2 c2 h1 h2 hne p hint
    obtain ⟨ha, hb⟩ := hint
    simp only [childBoxesSingle, List.mem_cons, List.not_mem_nil, or_false,
      Prod.mk.injEq] at h1 h2
    rcases h1 with ⟨rfl, rfl⟩ | ⟨rfl, rfl⟩ | ⟨rfl, rfl⟩ | ⟨rfl, rfl⟩ | hr1
    all_goals try rcases hr1 with ⟨rfl, rfl⟩ | ⟨rfl, rfl⟩ | ⟨rfl, rfl⟩ | ⟨rfl, rfl⟩
    all_goals rcases h2 with ⟨rfl, rfl⟩ | ⟨rfl, rfl⟩ | ⟨rfl, rfl⟩ | ⟨rfl, rfl⟩ | hr2
    all_goals try rcases hr2 with ⟨rfl, rfl⟩ | ⟨rfl, rfl⟩ | ⟨rfl, rfl⟩ | ⟨rfl, rfl⟩
    all_goals first
    | exact hne rfl
    | (obtain ⟨a1, a2, a3, a4, a5, a6⟩ := ha
       obtain ⟨b1, b2, b3, b4, b5, b6⟩ := hb
       simp only [bbox_nwd, bbox_nwu, bbox_ned, bbox_neu, bbox_swd, bbox_swu,
         bbox_sed, bbox_seu, bwidth, blength, bheight, bup, bmiddle, bdown]
         at a1 a2 a3 a4 a5 a6 b1 b2 b3 b4 b5 b6
       linarith)

/-- Witness for child_boxes_tile at the unit cube. -/
theorem child_boxes_tile_witness :
    childBoxesRoot ⟨0, 0, 0, 1, 1, 1⟩ = childBoxesSingle ⟨0, 0, 0, 1, 1, 1⟩ ∧
    (∀ o c, (o, c) ∈ childBoxesSingle ⟨0, 0, 0, 1, 1, 1⟩ →
      ∀ p, memB p c → memB p ⟨0, 0, 0, 1, 1, 1⟩) ∧
    (∀ p, memB p ⟨0, 0, 0, 1, 1, 1⟩ →
      ∃ o c, (o, c) ∈ childBoxesSingle ⟨0, 0, 0, 1, 1, 1⟩ ∧ memB p c) ∧
    (∀ o₁ c₁ o₂ c₂, (o₁, c₁) ∈ childBoxesSingle ⟨0, 0, 0, 1, 1, 1⟩ →
      (o₂, c₂) ∈ childBoxesSingle ⟨0, 0, 0, 1, 1, 1⟩ → o₁ ≠ o₂ →
      ∀ p, ¬(intMemB p c₁ ∧ intMemB p c₂)) :=
  child_boxes_tile ⟨0, 0, 0, 1, 1, 1⟩ (by norm_num) (by norm_num) (by norm_num)

/-- The pruning invariant down to a given depth: every attached child is
a non-empty dict, recursively.  Quantified over all depths this says the
whole tree is pruned. -/
def prunedToDepth : ℕ → Hierarchy → Bool
  | 0, _ => true
  | k + 1, h => h.children.all (fun oc => !oc.2.isEmpty && prunedToDepth k oc.2)

lemma buildChildrenSeq_ok_mem (f : BBox → Except Unit Hierarchy × QueryLog) :
    ∀ (cbs : List (Octant × BBox)) (cs : List (Octant × Hierarchy)) (log : QueryLog),
      buildChildrenSeq f cbs = (.ok cs, log) →
      ∀ oc ∈ cs, oc.2.isEmpty = false ∧
        ∃ cb l, (oc.1, cb) ∈ cbs ∧ f cb = (.ok oc.2, l) := by
  intro cbs
  induction cbs with
  | nil =>
    intro cs log h oc hm
    simp only [buildChildrenSeq, Prod.mk.injEq, Except.ok.injEq] at h
    obtain ⟨h1, _⟩ := h
    subst h1
    simp at hm
  | cons head rest ih =>
    obtain ⟨o, cb⟩ := head
    intro cs log h oc hm
    rw [buildChildrenSeq] at h
    rcases hf : f cb with ⟨e, rlog⟩
    rw [hf] at h
    cases e with
    | error e => simp at h
    | ok hh =>
      rcases hr : buildChildrenSeq f rest with ⟨e2, rl2⟩
      rw [hr] at h
      cases e2 with
      | error e2 => simp at h
      | ok hs =>
        simp only [Prod.mk.injEq, Except.ok.injEq] at h
        obtain ⟨hcs, _⟩ := h
        subst hcs
        rcases List.mem_append.1 hm with hleft | hright
        · by_cases he : hh.isEmpty
          · rw [if_pos he] at hleft
            simp at hleft
          · rw [if_neg he] at hleft
            simp only [List.mem_singleton] at hleft
            subst hleft
            exact ⟨Bool.eq_false_iff.mpr he,
              cb, rlog, List.mem_cons_self _ _, hf⟩
        · obtain ⟨hemp, cb', l', hmem, hf'⟩ := ih hs rl2 hr oc hright
          exact ⟨hemp, cb', l', List.mem_cons_of_mem _ hmem, hf'⟩

lemma buildChildrenPar_ok_mem (f : BBox → Except Unit Hierarchy × QueryLog) :
    ∀ (cbs : List (Octant × BBox)) (cs : List (Octant × Hierarchy)) (log : QueryLog),
      buildChildrenPar f cbs = (.ok cs, log) →
      ∀ oc ∈ cs, ∃ cb l, (oc.1, cb) ∈ cbs ∧ f cb = (.ok oc.2, l) := by
  intro cbs
  induction cbs with
  | nil =>
    intro cs log h oc hm
    simp only [buildChildrenPar, Prod.mk.injEq, Except.ok.injEq] at h
    obtain ⟨h1, _⟩ := h
    subst h1
    simp at hm
  | cons head rest ih =>
    obtain ⟨o, cb⟩ := head
    intro cs log h oc hm
    rw [buildChildrenPar] at h
    rcases hf : f cb with ⟨e, rlog⟩
    rw [hf] at h
    rcases hr : buildChildrenPar f rest with ⟨e2, rl2⟩
    rw [hr] at h
    cases e with
    | error e => simp at h
    | ok hh =>
      cases e2 with
      | error e2 => simp at h
      | ok hs =>
        simp only [Prod.mk.injEq, Except.ok.injEq] at h
        obtain ⟨hcs, _⟩ := h
        subst hcs
        rcases List.mem_cons.1 hm with hleft | hright
        · subst hleft
          exact ⟨cb, rlog, List.mem_cons_self _ _, hf⟩
        · obtain ⟨cb', l', hmem, hf'⟩ := ih hs rl2 hr oc hright
          exact ⟨cb', l', List.mem_cons_of_mem _ hmem, hf'⟩

lemma buildSingleL_ok_pruned (store : Store) :
    ∀ (fuel : ℕ) (lod lod_max : ℤ) (bbox : BBox) (h : Hierarchy),
      (buildSingleL store fuel lod lod_max bbox).1 = .ok h →
      ∀ k, prunedToDepth k h = true := by
  intro fuel
  induction fuel with
  | zero =>
    intro lod lod_max bbox h hok k
    rw [buildSingleL] at hok
    rcases hs : store bbox lod with e | wkb
    · rw [hs] at hok; simp at hok
    · rw [hs] at hok
      simp only at hok
      by_cases hg : lod + 1 ≤ lod_max
      · rw [if_pos hg] at hok; simp at hok
      · rw [if_neg hg] at hok
        simp only [Except.ok.injEq] at hok
        subst hok
        cases k with
        | zero => rfl
        | succ k => simp [prunedToDepth, Hierarchy.children]
  | succ fuel ih =>
    intro lod lod_max bbox h hok k
    rw [buildSingleL] at hok
    rcases hs : store bbox lod with e | wkb
    · rw [hs] at hok; simp at hok
    · rw [hs] at hok
      simp only at hok
      by_cases hg : lod + 1 ≤ lod_max
      · rw [if_pos hg] at hok
        rcases hc : buildChildrenSeq
            (fun cb => buildSingleL store fuel (lod + 1) lod_max cb)
            (childBoxesSingle bbox) with ⟨e2, clog⟩
        rw [hc] at hok
        cases e2 with
        | error e2 => simp at hok
        | ok cs =>
          simp only [Except.ok.injEq] at hok
          subst hok
          cases k with
          | zero => rfl
          | succ k =>
            simp only [prunedToDepth, Hierarchy.children, List.all_eq_true]
            intro oc hmem
            obtain ⟨hemp, cb, l, _, hf⟩ :=
              buildChildrenSeq_ok_mem _ _ cs clog hc oc hmem
            have hok' : (buildSingleL store fuel (lod + 1) lod_max cb).1 = .ok oc.2 := by
              rw [hf]
            have := ih (lod + 1) lod_max cb oc.2 hok' k
            simp [hemp, this]
      · rw [if_neg hg] at hok
        simp only [Except.ok.injEq] at hok
        subst hok
        cases k with
        | zero => rfl
        | succ k => simp [prunedToDepth, Hierarchy.children]

lemma build_from_pg_children_pruned (store : Store) (lod lod_max : ℤ)
    (bbox : BBox) (h : Hierarchy)
    (hok : (build_hierarchy_from_pg store lod lod_max bbox).1 = .ok h) :
    ∀ oc ∈ h.children, ∀ k, prunedToDepth k oc.2 = true := by
  intro oc hmem k
  rw [build_hierarchy_from_pg] at hok
  rcases hs : store bbox lod with e | wkb
  · rw [hs] at hok; simp at hok
  · rw [hs] at hok
    simp only at hok
    by_cases hg : lod + 1 ≤ lod_max
    · rw [if_pos hg] at hok
      rcases hc : buildChildrenPar
          (fun cb => build_hierarchy_from_pg_single store (lod + 1) lod_max cb)
          (childBoxesRoot bbox) with ⟨e2, clog⟩
      rw [hc] at hok
      cases e2 with
      | error e2 => simp at hok
      | ok cs =>
        simp only [Except.ok.injEq] at hok
        subst hok
        simp only [Hierarchy.children] at hmem
        obtain ⟨cb, l, _, hf⟩ :=
          buildChildrenPar_ok_mem _ _ cs clog hc oc hmem
        have hok' : (buildSingleL store (lod_max + 1 - (lod + 1)).toNat
            (lod + 1) lod_max cb).1 = .ok oc.2 := by
          have : build_hierarchy_from_pg_single store (lod + 1) lod_max cb =
              (.ok oc.2, l) := hf
          rw [build_hierarchy_from_pg_single] at this
          rw [this]
        exact buildSingleL_ok_pruned store _ (lod + 1) lod_max cb oc.2 hok' k
    · rw [if_neg hg] at hok
      simp only [Except.ok.injEq] at hok
      subst hok
      simp only [Hierarchy.children] at hmem
      simp at hmem

/-- A store in which every node query succeeds with SQL NULL (no patch
intersects any node). -/
def emptyStore : Store := fun _ _ => .ok none

/-- A store whose queries raise exactly at LoD 1 and return NULL
elsewhere. -/
def failLod1Store : Store := fun _ lod =>
  if lod = 1 then .error () else .ok none

/-- A concrete root bbox. -/
def box0 : BBox := ⟨0, 0, 0, 2, 2, 2⟩

/-- C3 counterexample: on a store with no points at all,
build_hierarchy_from_pg at lod = 0, lod_max = 1 attaches all 8 children
of the root even though every one of them is the empty dict (lines
459-460 attach hier.result() without the emptiness test that
build_hierarchy_from_pg_single applies), so the claimed pruning fails at
the root's 8 children: prunedToDepth 1 is false on the result. -/
theorem root_attaches_empty_children :
    (build_hierarchy_from_pg emptyStore 0 1 box0).1 =
      .ok (Hierarchy.mk none
        [(Octant.nwd, emptyHierarchy), (Octant.nwu, emptyHierarchy),
         (Octant.ned, emptyHierarchy), (Octant.neu, emptyHierarchy),
         (Octant.swd, emptyHierarchy), (Octant.swu, emptyHierarchy),
         (Octant.sed, emptyHierarchy), (Octant.seu, emptyHierarchy)]) ∧
    emptyHierarchy.isEmpty = true ∧
    prunedToDepth 1 (Hierarchy.mk none
        [(Octant.nwd, emptyHierarchy), (Octant.nwu, emptyHierarchy),
         (Octant.ned, emptyHierarchy), (Octant.neu, emptyHierarchy),
         (Octant.swd, emptyHierarchy), (Octant.swu, emptyHierarchy),
         (Octant.sed, emptyHierarchy), (Octant.seu, emptyHierarchy)]) = false :=
  ⟨rfl, rfl, rfl⟩

/-- C3 amended: in build_hierarchy_from_pg_single a child subtree is
attached only if it is non-empty, and this pruning holds at every level
of any subtree it returns; build_hierarchy_from_pg however attaches all
8 root children unconditionally (they may be empty dicts), while each
attached child's own subtree is fully pruned. -/
theorem subtree_pruning (store : Store) (lod lod_max : ℤ) (bbox : BBox) :
    (∀ (fuel : ℕ) (h : Hierarchy) (k : ℕ),
      (buildSingleL store fuel lod lod_max bbox).1 = .ok h →
      prunedToDepth k h = true) ∧
    (∀ (h : Hierarchy) (k : ℕ),
      (build_hierarchy_from_pg store lod lod_max bbox).1 = .ok h →
      ∀ oc ∈ h.children, prunedToDepth k oc.2 = true) :=
  ⟨fun fuel h k hok => buildSingleL_ok_pruned store fuel lod lod_max bbox h hok k,
   fun h k hok oc hmem =>
     build_from_pg_children_pruned store lod lod_max bbox h hok oc hmem k⟩

/-- Witness for subtree_pruning on the all-empty store at the unit-ish
cube, lod = 0, lod_max = 1. -/
theorem subtree_pruning_witness :
    prunedToDepth 2 (Hierarchy.mk none []) = true ∧
    (∀ oc ∈ (Hierarchy.mk none
        [(Octant.nwd, emptyHierarchy), (Octant.nwu, emptyHierarchy),
         (Octant.ned, emptyHierarchy), (Octant.neu, emptyHierarchy),
         (Octant.swd, emptyHierarchy), (Octant.swu, emptyHierarchy),
         (Octant.sed, emptyHierarchy), (Octant.seu, emptyHierarchy)]).children,
       prunedToDepth 2 oc.2 = true) :=
  ⟨(subtree_pruning emptyStore 0 1 box0).1 2 (Hierarchy.mk none []) 2 rfl,
   fun oc hmem =>
     (subtree_pruning emptyStore 0 1 box0).2 _ 2 rfl oc hmem⟩

lemma buildChildrenSeq_ok_of_all (f : BBox → Except Unit Hierarchy × QueryLog) :
    ∀ (cbs : List (Octant × BBox)),
      (∀ oc ∈ cbs, ∃ h l, f oc.2 = (.ok h, l)) →
      ∃ cs log, buildChildrenSeq f cbs = (.ok cs, log) := by
  intro cbs
  induction cbs with
  | nil => intro _; exact ⟨[], [], rfl⟩
  | cons head rest ih =>
    obtain ⟨o, cb⟩ := head
    intro hall
    obtain ⟨h, l, hf⟩ := hall (o, cb) (List.mem_cons_self _ _)
    obtain ⟨cs, log, hr⟩ := ih (fun oc hm => hall oc (List.mem_cons_of_mem _ hm))
    refine ⟨(if h.isEmpty then [] else [(o, h)]) ++ cs, l ++ log, ?_⟩
    rw [buildChildrenSeq, hf, hr]

lemma buildSingleL_ok_of_total (store : Store)
    (hstore : ∀ b l, store b l ≠ .error ()) :
    ∀ (fuel : ℕ) (lod lod_max : ℤ) (bbox : BBox),
      (lod_max + 1 - lod).toNat ≤ fuel →
      ∃ h log, buildSingleL store fuel lod lod_max bbox = (.ok h, log) := by
  intro fuel
  induction fuel with
  | zero =>
    intro lod lod_max bbox hfuel
    rw [buildSingleL]
    rcases hs : store bbox lod with e | wkb
    · exact absurd hs (by cases e; exact hstore bbox lod)
    · simp only
      have hg : ¬(lod + 1 ≤ lod_max) := by omega
      rw [if_neg hg]
      exact ⟨_, _, rfl⟩
  | succ fuel ih =>
    intro lod lod_max bbox hfuel
    rw [buildSingleL]
    rcases hs : store bbox lod with e | wkb
    · exact absurd hs (by cases e; exact hstore bbox lod)
    · simp only
      by_cases hg : lod + 1 ≤ lod_max
      · rw [if_pos hg]
        have hall : ∀ oc ∈ childBoxesSingle bbox,
            ∃ h l, buildSingleL store fuel (lod + 1) lod_max oc.2 = (.ok h, l) :=
          fun oc _ => ih (lod + 1) lod_max oc.2 (by omega)
        obtain ⟨cs, log, hc⟩ := buildChildrenSeq_ok_of_all _ _ hall
        rw [hc]
        exact ⟨_, _, rfl⟩
      · rw [if_neg hg]
        exact ⟨_, _, rfl⟩

lemma buildSingleL_log_cons (store : Store) (fuel : ℕ) (lod lod_max : ℤ)
    (bbox : BBox) :
    ∃ t, (buildSingleL store fuel lod lod_max bbox).2 = (bbox, lod) :: t := by
  rw [buildSingleL]
  rcases hs : store bbox lod with e | wkb
  · exact ⟨[], rfl⟩
  · simp only
    by_cases hg : lod + 1 ≤ lod_max
    · rw [if_pos hg]
      cases fuel with
      | zero => exact ⟨[], rfl⟩
      | succ fuel =>
        rcases hc : buildChildrenSeq
            (fun cb => buildSingleL store fuel (lod + 1) lod_max cb)
            (childBoxesSingle bbox) with ⟨e2, clog⟩
        cases e2 with
        | error e2 => refine ⟨clog, ?_⟩; simp only; rw [hc]
        | ok cs => refine ⟨clog, ?_⟩; simp only; rw [hc]
    · rw [if_neg hg]
      exact ⟨[], rfl⟩

lemma buildChildrenSeq_log_prefix (f : BBox → Except Unit Hierarchy × QueryLog)
    (o : Octant) (cb : BBox) (rest : List (Octant × BBox)) :
    ∃ t, (buildChildrenSeq f ((o, cb) :: rest)).2 = (f cb).2 ++ t := by
  rw [buildChildrenSeq]
  rcases hf : f cb with ⟨e, rlog⟩
  cases e with
  | error e =>
    refine ⟨[], ?_⟩
    simp [hf]
  | ok h =>
    rcases hr : buildChildrenSeq f rest with ⟨e2, rl2⟩
    cases e2 with
    | error e2 => refine ⟨rl2, ?_⟩; simp [hf, hr]
    | ok hs => refine ⟨rl2, ?_⟩; simp [hf, hr]

/-- C4 counterexample: with a store whose every query returns NULL, the
node query at (box0, 0) returns no patch, yet
build_hierarchy_from_pg_single at lod = 0, lod_max = 1 still recurses
beneath that empty node and issues the 8 child queries (9 logged queries
instead of the single root query the claim would allow); and with a
store that raises at LoD 1, the exception propagates out of the engine
instead of the node being treated as empty with siblings continuing. -/
theorem empty_node_recursion_counterexample :
    emptyStore box0 0 = Except.ok none ∧
    (build_hierarchy_from_pg_single emptyStore 0 1 box0).2.length = 9 ∧
    (build_hierarchy_from_pg_single emptyStore 0 1 box0).2 ≠ [(box0, 0)] ∧
    (build_hierarchy_from_pg_single failLod1Store 0 2 box0).1 = .error () := by
  refine ⟨rfl, rfl, ?_, rfl⟩
  intro h
  have h9 : (build_hierarchy_from_pg_single emptyStore 0 1 box0).2.length = 9 := rfl
  rw [h] at h9
  simp at h9

/-- C4 amended: when the store query for a node raises, the exception
propagates out of build_hierarchy_from_pg_single (aborting the whole
hierarchy, siblings included) rather than the node being treated as
empty; when the query returns no patch, the node carries no point count
n, but recursion does continue beneath it and issues further store
queries; when no query raises, the build always returns a tree. -/
theorem empty_or_failed_node (store : Store) (lod lod_max : ℤ) (bbox : BBox) :
    (store bbox lod = .error () →
      build_hierarchy_from_pg_single store lod lod_max bbox =
        (.error (), [(bbox, lod)])) ∧
    (∀ h, store bbox lod = .ok none →
      (build_hierarchy_from_pg_single store lod lod_max bbox).1 = .ok h →
      h.n = none) ∧
    (store bbox lod = .ok none → lod + 1 ≤ lod_max →
      2 ≤ (build_hierarchy_from_pg_single store lod lod_max bbox).2.length) ∧
    ((∀ b l, store b l ≠ .error ()) →
      ∃ h log, build_hierarchy_from_pg_single store lod lod_max bbox =
        (.ok h, log)) := by
  refine ⟨?_, ?_, ?_, ?_⟩
  · intro he
    rw [build_hierarchy_from_pg_single, buildSingleL, he]
  · intro h he hok
    rw [build_hierarchy_from_pg_single, buildSingleL, he] at hok
    simp only at hok
    by_cases hg : lod + 1 ≤ lod_max
    · rw [if_pos hg] at hok
      obtain ⟨f', hf'⟩ : ∃ f', (lod_max + 1 - lod).toNat = f' + 1 :=
        ⟨(lod_max - lod).toNat, by omega⟩
      rw [hf'] at hok
      simp only at hok
      rcases hc : buildChildrenSeq
          (fun cb => buildSingleL store f' (lod + 1) lod_max cb)
          (childBoxesSingle bbox) with ⟨e2, clog⟩
      rw [hc] at hok
      cases e2 with
      | error e2 => simp at hok
      | ok cs =>
        simp only [Except.ok.injEq] at hok
        subst hok
        simp [Hierarchy.n, wkbTruthy]
    · rw [if_neg hg] at hok
      simp only [Except.ok.injEq] at hok
      subst hok
      simp [Hierarchy.n, wkbTruthy]
  · intro he hg
    rw [build_hierarchy_from_pg_single, buildSingleL, he]
    simp only
    rw [if_pos hg]
    obtain ⟨f', hf'⟩ : ∃ f', (lod_max + 1 - lod).toNat = f' + 1 :=
      ⟨(lod_max - lod).toNat, by omega⟩
    rw [hf']
    simp only
    rcases hc : buildChildrenSeq
        (fun cb => buildSingleL store f' (lod + 1) lod_max cb)
        (childBoxesSingle bbox) with ⟨e2, clog⟩
    have hpre : ∃ t, clog =
        (buildSingleL store f' (lod + 1) lod_max (bbox_nwd bbox)).2 ++ t := by
      obtain ⟨t, ht⟩ := buildChildrenSeq_log_prefix
        (fun cb => buildSingleL store f' (lod + 1) lod_max cb)
        Octant.nwd (bbox_nwd bbox)
        [(Octant.nwu, bbox_nwu bbox), (Octant.ned, bbox_ned bbox),
         (Octant.neu, bbox_neu bbox), (Octant.swd, bbox_swd bbox),
         (Octant.swu, bbox_swu bbox), (Octant.sed, bbox_sed bbox),
         (Octant.seu, bbox_seu bbox)]
      rw [show ((Octant.nwd, bbox_nwd bbox) ::
          [(Octant.nwu, bbox_nwu bbox), (Octant.ned, bbox_ned bbox),
           (Octant.neu, bbox_neu bbox), (Octant.swd, bbox_swd bbox),
           (Octant.swu, bbox_swu bbox), (Octant.sed, bbox_sed bbox),
           (Octant.seu, bbox_seu bbox)]) = childBoxesSingle bbox from rfl,
        hc] at ht
      exact ⟨t, ht⟩
    obtain ⟨t, ht⟩ := hpre
    obtain ⟨t', ht'⟩ := buildSingleL_log_cons store f' (lod + 1) lod_max (bbox_nwd bbox)
    cases e2 with
    | error e2 =>
      simp only [List.length_cons]
      rw [ht, ht']
      simp only [List.length_append, List.length_cons]
      omega
    | ok cs =>
      simp only [List.length_cons]
      rw [ht, ht']
      simp only [List.length_append, List.length_cons]
      omega
  · intro hstore
    exact buildSingleL_ok_of_total store hstore _ lod lod_max bbox le_rfl

/-- Witness for empty_or_failed_node: the empty store at lod 0, lod_max 1
(an empty node whose subtree is still queried) and the store raising at
LoD 1. -/
theorem empty_or_failed_node_witness :
    (Hierarchy.mk none []).n = none ∧
    2 ≤ (build_hierarchy_from_pg_single emptyStore 0 1 box0).2.length ∧
    build_hierarchy_from_pg_single failLod1Store 1 2 box0 =
      (.error (), [(box0, 1)]) :=
  ⟨(empty_or_failed_node emptyStore 0 1 box0).2.1 (Hierarchy.mk none []) rfl rfl,
   (empty_or_failed_node emptyStore 0 1 box0).2.2.1 rfl (by norm_num),
   (empty_or_failed_node failLod1Store 1 2 box0).1 rfl⟩

/-- Modelled from the spec: hexdata_from_wkb_pcpatch (lopocs/utils.py is
not part of the sources).  Per the byte layout of spec section 3 the
patch payload starts at byte 17, after the 1-byte endianness flag and the
4-byte type tag, pcid, point count and payload length words. -/
def hexdata_from_wkb_pcpatch (wkb : List ℕ) : List ℕ :=
  wkb.drop 17

/-- Modelled from the spec: hexa_signed_int32 (lopocs/utils.py is not
part of the sources).  Spec sections 4.2 and 6: the appended point-count
footer is the 4-byte little-endian encoding of the count, regardless of
the patch endianness. -/
def hexa_signed_int32 (n : ℕ) : List ℕ :=
  [n % 256, n / 256 % 256, n / 256 ^ 2 % 256, n / 256 ^ 3 % 256]

/-- Little-endian read-back of a 4-byte footer. -/
def uint32_le_decode (bs : List ℕ) : ℕ :=
  bs.getD 0 0 + 256 * bs.getD 1 0 + 256 ^ 2 * bs.getD 2 0 + 256 ^ 3 * bs.getD 3 0

/-- The point query of the Read path, abstracting
session.query(get_points_query(...))[0][0]: per (bbox, pcid, lod) it
raises, returns SQL NULL, or returns a pcpatch WKB byte string. -/
abbrev PointStore : Type := BBox → ℕ → ℤ → Except Unit (Option (List ℕ))

/-- get_points (greyhound.py lines 354-387).  The try block reads the
single query result; on success the buffer is the patch payload followed
by hexa_signed_int32 of the patch point count.  A query exception, and
likewise the TypeError npoints_from_wkb_pcpatch raises on a NULL
(None) result, are caught by the bare except, which leaves npoints = 0
and fills the buffer with hexa_signed_int32(0); no error escapes the
function.  Returns [hexbuffer, npoints]. -/
def get_points (q : PointStore) (box : BBox) (schema_pcid : ℕ) (lod : ℤ) :
    List ℕ × ℕ :=
  match q box schema_pcid lod with
  | .error _ => (hexa_signed_int32 0, 0)
  | .ok none => (hexa_signed_int32 0, 0)
  | .ok (some pcpatch_wkb) =>
    let npoints := npoints_from_wkb_pcpatch pcpatch_wkb
    (hexdata_from_wkb_pcpatch pcpatch_wkb ++ hexa_signed_int32 npoints, npoints)

lemma uint32_le_decode_hexa (n : ℕ) :
    uint32_le_decode (hexa_signed_int32 n) = n % 2 ^ 32 := by
  unfold uint32_le_decode hexa_signed_int32
  simp only [List.getD]
  simp only [List.get?_eq_getElem?, List.getElem?_cons_zero, List.getElem?_cons_succ,
    Option.getD_some]
  omega

/-- C5: for every Read, the buffer returned by get_points is the patch
payload followed by the 4-byte little-endian encoding of the point count
read from the patch header (npoints_from_wkb_pcpatch), and is exactly
the 4 zero bytes encoding count 0 when the node is empty (NULL patch) or
the store query raises; in the failure cases get_points still returns
normally (the exception is swallowed), with npoints = 0. -/
theorem get_points_frame (q : PointStore) (box : BBox) (pcid : ℕ) (lod : ℤ) :
    (∀ wkb, q box pcid lod = .ok (some wkb) →
      get_points q box pcid lod =
        (hexdata_from_wkb_pcpatch wkb ++
           hexa_signed_int32 (npoints_from_wkb_pcpatch wkb),
         npoints_from_wkb_pcpatch wkb) ∧
      (hexa_signed_int32 (npoints_from_wkb_pcpatch wkb)).length = 4 ∧
      uint32_le_decode (hexa_signed_int32 (npoints_from_wkb_pcpatch wkb)) =
        npoints_from_wkb_pcpatch wkb % 2 ^ 32) ∧
    (q box pcid lod = .ok none →
      get_points q box pcid lod = ([0, 0, 0, 0], 0)) ∧
    (q box pcid lod = .error () →
      get_points q box pcid lod = ([0, 0, 0, 0], 0)) := by
  refine ⟨?_, ?_, ?_⟩
  · intro wkb hq
    rw [get_points, hq]
    exact ⟨rfl, rfl, uint32_le_decode_hexa _⟩
  · intro hq
    rw [get_points, hq]
    rfl
  · intro hq
    rw [get_points, hq]
    rfl

/-- A concrete point store returning a fixed little-endian patch with 2
points and payload bytes 7, 8, 9. -/
def patchStore : PointStore := fun _ _ _ =>
  .ok (some ([1, 0, 0, 0, 0, 9, 0, 0, 0, 2, 0, 0, 0, 3, 0, 0, 0] ++ [7, 8, 9]))

/-- Witness for get_points_frame on patchStore (a 2-point patch) and on
emptyStore reused as a point store via a constant NULL result. -/
theorem get_points_frame_witness :
    (get_points patchStore box0 1 0 =
      (hexdata_from_wkb_pcpatch
          ([1, 0, 0, 0, 0, 9, 0, 0, 0, 2, 0, 0, 0, 3, 0, 0, 0] ++ [7, 8, 9]) ++
         hexa_signed_int32 (npoints_from_wkb_pcpatch
          ([1, 0, 0, 0, 0, 9, 0, 0, 0, 2, 0, 0, 0, 3, 0, 0, 0] ++ [7, 8, 9])),
       npoints_from_wkb_pcpatch
          ([1, 0, 0, 0, 0, 9, 0, 0, 0, 2, 0, 0, 0, 3, 0, 0, 0] ++ [7, 8, 9])) ∧
      (hexa_signed_int32 (npoints_from_wkb_pcpatch
          ([1, 0, 0, 0, 0, 9, 0, 0, 0, 2, 0, 0, 0, 3, 0, 0, 0] ++ [7, 8, 9]))).length = 4 ∧
      uint32_le_decode (hexa_signed_int32 (npoints_from_wkb_pcpatch
          ([1, 0, 0, 0, 0, 9, 0, 0, 0, 2, 0, 0, 0, 3, 0, 0, 0] ++ [7, 8, 9]))) =
        npoints_from_wkb_pcpatch
          ([1, 0, 0, 0, 0, 9, 0, 0, 0, 2, 0, 0, 0, 3, 0, 0, 0] ++ [7, 8, 9]) % 2 ^ 32) ∧
    get_points (fun _ _ _ => .ok none) box0 1 0 = ([0, 0, 0, 0], 0) :=
  ⟨(get_points_frame patchStore box0 1 0).1 _ rfl,
   (get_points_frame (fun _ _ _ => .ok none) box0 1 0).2.1 rfl⟩

/-- LoD resolution in GreyhoundRead (greyhound.py lines 114-117): lod = 0
when the depth parameter is not None, else depthEnd - LOADER_GREYHOUND_MIN_DEPTH - 1.
No other assignment to lod occurs before the get_points call at line 123;
in particular Config.DEPTH is never consulted on this path. -/
def GreyhoundRead_lod (depth : Option ℤ) (depthEnd : ℤ) : ℤ :=
  if depth.isSome then 0 else depthEnd - LOADER_GREYHOUND_MIN_DEPTH - 1

/-- The get_points call of GreyhoundRead (greyhound.py line 123), with
the LoD resolved as in lines 114-117. -/
def GreyhoundRead_get_points (q : PointStore) (bbox : BBox) (pcid : ℕ)
    (depth : Option ℤ) (depthEnd : ℤ) : List ℕ × ℕ :=
  get_points q bbox pcid (GreyhoundRead_lod depth depthEnd)

/-- C6 counterexample: GreyhoundRead applies no cap to the LoD it passes
to the point query.  With depthEnd = 20 and depth absent the code uses
lod = 11, which for a dataset configured with maximum depth
Config.DEPTH = 6 exceeds any cap at that maximum (the Hierarchy path
would clamp to Config.DEPTH - 1 = 5), so the claimed capping does not
happen. -/
theorem read_lod_uncapped_counterexample :
    GreyhoundRead_lod none 20 = 11 ∧
    ¬(GreyhoundRead_lod none 20 ≤ 6 - 1) ∧ ¬(GreyhoundRead_lod none 20 ≤ 6) := by
  refine ⟨rfl, ?_, ?_⟩ <;> decide

/-- C6 amended: for every Read, the LoD passed to the point query is 0
when the depth parameter is given and depthEnd - 8 - 1 otherwise
(LOADER_GREYHOUND_MIN_DEPTH = 8); no cap at the dataset's configured
maximum depth is applied. -/
theorem read_lod_resolution (q : PointStore) (bbox : BBox) (pcid : ℕ)
    (depth : Option ℤ) (depthEnd : ℤ) :
    (∀ d, depth = some d → GreyhoundRead_lod depth depthEnd = 0) ∧
    (depth = none →
      GreyhoundRead_lod depth depthEnd = depthEnd - 8 - 1) ∧
    GreyhoundRead_get_points q bbox pcid depth depthEnd =
      get_points q bbox pcid (GreyhoundRead_lod depth depthEnd) := by
  refine ⟨?_, ?_, rfl⟩
  · intro d hd
    subst hd
    rfl
  · intro hd
    subst hd
    rfl

/-- Witness for read_lod_resolution at depth = some 3 and depth = none
is covered by instantiating both hypotheses at concrete parameters. -/
theorem read_lod_resolution_witness :
    GreyhoundRead_lod (some 3) 20 = 0 ∧
    GreyhoundRead_lod none 20 = 20 - 8 - 1 :=
  ⟨(read_lod_resolution patchStore box0 1 (some 3) 20).1 3 rfl,
   (read_lod_resolution patchStore box0 1 none 20).2.1 rfl⟩

/-- The configuration values GreyhoundHierarchy reads: Config.DEPTH and
Config.ROOT_HCY (conf.py is configuration, not part of the sources; the
two fields are passed explicitly). -/
structure GreyhoundConfig where
  depth : ℤ
  rootHcy : Option String

/-- Python truthiness of Config.ROOT_HCY: None and the empty string are
falsy. -/
def strOptTruthy : Option String → Bool
  | none => false
  | some s => !(s == "")

/-- Modelled from the spec: read_in_cache/write_in_cache (lopocs/utils.py
is not part of the sources).  The disk cache is a partial map from
filename to a stored hierarchy tree. -/
abbrev HierarchyCache : Type := String → Option Hierarchy

/-- The bbox as the 6-element list [x0, y0, z0, x1, y1, z1] that
GreyhoundHierarchy joins into the cache filename. -/
def bboxList (b : BBox) : List ℚ :=
  [b.xmin, b.ymin, b.zmin, b.xmax, b.ymax, b.zmax]

/-- The scale/offset transform of GreyhoundHierarchy (greyhound.py lines
154-162): when offset is truthy each bbox corner coordinate becomes
coordinate * scale + offset component; otherwise the bbox is unchanged.
list_from_str parsing (utils.py, not in the sources) is modelled by
taking the bounds already as a BBox. -/
def transformBBox (bbox : BBox) (scale : ℚ) (offset : Option (ℚ × ℚ × ℚ)) : BBox :=
  match offset with
  | none => bbox
  | some (ox, oy, oz) =>
    ⟨bbox.xmin * scale + ox, bbox.ymin * scale + oy, bbox.zmin * scale + oz,
     bbox.xmax * scale + ox, bbox.ymax * scale + oy, bbox.zmax * scale + oz⟩

/-- The cache filename of GreyhoundHierarchy (greyhound.py lines
167-169): "{table}_{column}_{lodmin}_{lodmax}_{joined bbox}.hcy" where
the bbox coordinates are joined with "_".  Python str() of a float is
modelled by toString on ℚ. -/
def hierarchyFilename (table column : String) (lod_min lod_max : ℤ)
    (bbox : BBox) : String :=
  table ++ "_" ++ column ++ "_" ++ toString lod_min ++ "_" ++
    toString lod_max ++ "_" ++
    String.intercalate "_" ((bboxList bbox).map toString) ++ ".hcy"

/-- The cache key of GreyhoundHierarchy (greyhound.py lines 164-169):
Config.ROOT_HCY when lod_min == 0 and ROOT_HCY is truthy, else the
deterministic filename. -/
def hierarchyCacheKey (cfg : GreyhoundConfig) (table column : String)
    (lod_min lod_max : ℤ) (bbox : BBox) : String :=
  if lod_min = 0 ∧ strOptTruthy cfg.rootHcy then
    cfg.rootHcy.getD ""
  else
    hierarchyFilename table column lod_min lod_max bbox

/-- lod_max of GreyhoundHierarchy (greyhound.py lines 148-150):
depthEnd - LOADER_GREYHOUND_MIN_DEPTH - 1, clamped down to
Config.DEPTH - 1. -/
def GreyhoundHierarchy_lod_max (cfg : GreyhoundConfig) (depthEnd : ℤ) : ℤ :=
  let m := depthEnd - LOADER_GREYHOUND_MIN_DEPTH - 1
  if m > cfg.depth - 1 then cfg.depth - 1 else m

/-- Python truthiness of the read_in_cache result tested at line 175:
a miss (None) and a cached empty dict are both falsy. -/
def hcyTruthy : Option Hierarchy → Bool
  | none => false
  | some h => !h.isEmpty

/-- Cache consultation and tree construction of GreyhoundHierarchy
(greyhound.py lines 164-183): read the cache at the key; line 175 tests
the result with Python truthiness, so only a non-empty cached dict
counts as a hit (a miss and a cached empty tree are both falsy); on a
truthy hit the cached tree is the response (the store is never
queried); otherwise build the tree (a raised store exception
propagates), write it to the cache, and respond with it.  The result
carries the response tree plus the cache write performed, if any. -/
def greyhoundHierarchyCore (cfg : GreyhoundConfig) (store : Store)
    (cache : HierarchyCache) (table column : String) (bbox : BBox)
    (lod_min lod_max : ℤ) :
    Except Unit (Hierarchy × Option (String × Hierarchy)) :=
  let filename := hierarchyCacheKey cfg table column lod_min lod_max bbox
  let cached_hcy := cache filename
  if hcyTruthy cached_hcy then
    .ok (cached_hcy.getD emptyHierarchy, none)
  else
    match (build_hierarchy_from_pg store lod_min lod_max bbox).1 with
    | .error _ => .error ()
    | .ok new_hcy => .ok (new_hcy, some (filename, new_hcy))

/-- GreyhoundHierarchy (greyhound.py lines 142-183):
lod_min = depthBegin - LOADER_GREYHOUND_MIN_DEPTH, lod_max as clamped,
bbox transformed by scale/offset, then the cache/build core. -/
def GreyhoundHierarchy (cfg : GreyhoundConfig) (store : Store)
    (cache : HierarchyCache) (table column : String) (bounds : BBox)
    (depthBegin depthEnd : ℤ) (scale : ℚ) (offset : Option (ℚ × ℚ × ℚ)) :
    Except Unit (Hierarchy × Option (String × Hierarchy)) :=
  greyhoundHierarchyCore cfg store cache table column
    (transformBBox bounds scale offset)
    (depthBegin - LOADER_GREYHOUND_MIN_DEPTH)
    (GreyhoundHierarchy_lod_max cfg depthEnd)

/-- C7: for every Hierarchy request, over- or under-cap alike, lod_max
equals min(depthEnd - 8 - 1, Config.DEPTH - 1); and when depthEnd
exceeds the configured maximum (depthEnd - 9 > Config.DEPTH - 1) the
GreyhoundHierarchy result is the same as for the clamped request
depthEnd = Config.DEPTH + 8. -/
theorem hierarchy_lod_max_clamped (cfg : GreyhoundConfig) (store : Store)
    (cache : HierarchyCache) (table column : String) (bounds : BBox)
    (depthBegin depthEnd : ℤ) (scale : ℚ) (offset : Option (ℚ × ℚ × ℚ)) :
    GreyhoundHierarchy_lod_max cfg depthEnd =
      min (depthEnd - 8 - 1) (cfg.depth - 1) ∧
    (depthEnd - 8 - 1 > cfg.depth - 1 →
      GreyhoundHierarchy cfg store cache table column bounds depthBegin
          depthEnd scale offset =
        GreyhoundHierarchy cfg store cache table column bounds depthBegin
          (cfg.depth + 8) scale offset) := by
  have hmin : ∀ dE, GreyhoundHierarchy_lod_max cfg dE =
      min (dE - 8 - 1) (cfg.depth - 1) := by
    intro dE
    unfold GreyhoundHierarchy_lod_max LOADER_GREYHOUND_MIN_DEPTH
    dsimp only
    split_ifs with h <;> omega
  refine ⟨hmin depthEnd, fun hover => ?_⟩
  rw [GreyhoundHierarchy, GreyhoundHierarchy,
    show GreyhoundHierarchy_lod_max cfg depthEnd =
      GreyhoundHierarchy_lod_max cfg (cfg.depth + 8) by
        rw [hmin, hmin]; omega]

/-- A configuration with maximum depth 6 and no root cache file. -/
def testCfg : GreyhoundConfig := ⟨6, none⟩

/-- An always-empty cache. -/
def noCache : HierarchyCache := fun _ => none

/-- Witness for hierarchy_lod_max_clamped: the min formula at an
over-cap depthEnd = 20 and at an under-cap depthEnd = 10 against
depth 6, and the clamping identity at depthEnd = 20. -/
theorem hierarchy_lod_max_clamped_witness :
    GreyhoundHierarchy_lod_max testCfg 20 = min (20 - 8 - 1) (testCfg.depth - 1) ∧
    GreyhoundHierarchy_lod_max testCfg 10 = min (10 - 8 - 1) (testCfg.depth - 1) ∧
    GreyhoundHierarchy testCfg emptyStore noCache "t" "p" box0 8 20 1 none =
      GreyhoundHierarchy testCfg emptyStore noCache "t" "p" box0 8
        (testCfg.depth + 8) 1 none :=
  ⟨(hierarchy_lod_max_clamped testCfg emptyStore noCache "t" "p" box0
      8 20 1 none).1,
   (hierarchy_lod_max_clamped testCfg emptyStore noCache "t" "p" box0
      8 10 1 none).1,
   (hierarchy_lod_max_clamped testCfg emptyStore noCache "t" "p" box0
      8 20 1 none).2 (by decide)⟩

/-- C8 amended: the cache key is ROOT_HCY when lod_min == 0 and a root
cache path is configured and truthy, and otherwise the deterministic
filename
"{table}_{column}_{lodmin}_{lodmax}_{x0}_{y0}_{z0}_{x1}_{y1}_{z1}.hcy"
built from the transformed bbox; whenever the cache holds a NON-EMPTY
(truthy) tree for the key, GreyhoundHierarchy returns exactly the
cached tree, with no cache write and without consulting the store; a
cached empty tree is falsy at line 175 and is treated like a miss: the
tree is rebuilt from the store and rewritten to the cache. -/
theorem hierarchy_cache_key_and_hit (cfg : GreyhoundConfig) (store : Store)
    (cache : HierarchyCache) (table column : String) (bounds : BBox)
    (depthBegin depthEnd : ℤ) (scale : ℚ) (offset : Option (ℚ × ℚ × ℚ))
    (t : Hierarchy) :
    (¬(depthBegin - LOADER_GREYHOUND_MIN_DEPTH = 0 ∧
        strOptTruthy cfg.rootHcy) →
      hierarchyCacheKey cfg table column
          (depthBegin - LOADER_GREYHOUND_MIN_DEPTH)
          (GreyhoundHierarchy_lod_max cfg depthEnd)
          (transformBBox bounds scale offset) =
        hierarchyFilename table column
          (depthBegin - LOADER_GREYHOUND_MIN_DEPTH)
          (GreyhoundHierarchy_lod_max cfg depthEnd)
          (transformBBox bounds scale offset)) ∧
    (∀ (tb cl : String) (lmin lmax : ℤ) (b : BBox),
      hierarchyFilename tb cl lmin lmax b =
        tb ++ "_" ++ cl ++ "_" ++ toString lmin ++ "_" ++ toString lmax ++
          "_" ++ toString b.xmin ++ "_" ++ toString b.ymin ++ "_" ++
          toString b.zmin ++ "_" ++ toString b.xmax ++ "_" ++
          toString b.ymax ++ "_" ++ toString b.zmax ++ ".hcy") ∧
    (∀ s, cfg.rootHcy = some s → s ≠ "" →
      depthBegin - LOADER_GREYHOUND_MIN_DEPTH = 0 →
      hierarchyCacheKey cfg table column
          (depthBegin - LOADER_GREYHOUND_MIN_DEPTH)
          (GreyhoundHierarchy_lod_max cfg depthEnd)
          (transformBBox bounds scale offset) = s) ∧
    (cache (hierarchyCacheKey cfg table column
        (depthBegin - LOADER_GREYHOUND_MIN_DEPTH)
        (GreyhoundHierarchy_lod_max cfg depthEnd)
        (transformBBox bounds scale offset)) = some t →
      t.isEmpty = false →
      GreyhoundHierarchy cfg store cache table column bounds depthBegin
          depthEnd scale offset = .ok (t, none) ∧
      ∀ store2 : Store,
        GreyhoundHierarchy cfg store cache table column bounds depthBegin
            depthEnd scale offset =
          GreyhoundHierarchy cfg store2 cache table column bounds depthBegin
            depthEnd scale offset) ∧
    (cache (hierarchyCacheKey cfg table column
        (depthBegin - LOADER_GREYHOUND_MIN_DEPTH)
        (GreyhoundHierarchy_lod_max cfg depthEnd)
        (transformBBox bounds scale offset)) = some t →
      t.isEmpty = true →
      ∀ h' : Hierarchy,
        (build_hierarchy_from_pg store
          (depthBegin - LOADER_GREYHOUND_MIN_DEPTH)
          (GreyhoundHierarchy_lod_max cfg depthEnd)
          (transformBBox bounds scale offset)).1 = .ok h' →
        GreyhoundHierarchy cfg store cache table column bounds depthBegin
            depthEnd scale offset =
          .ok (h', some (hierarchyCacheKey cfg table column
            (depthBegin - LOADER_GREYHOUND_MIN_DEPTH)
            (GreyhoundHierarchy_lod_max cfg depthEnd)
            (transformBBox bounds scale offset), h'))) := by
  refine ⟨?_, ?_, ?_, ?_, ?_⟩
  · intro h
    rw [hierarchyCacheKey, if_neg h]
  · intro tb cl lmin lmax b
    rw [hierarchyFilename, bboxList]
    simp [String.intercalate, String.intercalate.go, String.append_assoc]
  · intro s hs hne h0
    rw [hierarchyCacheKey, hs, if_pos]
    · rfl
    · refine ⟨h0, ?_⟩
      simp [strOptTruthy, hne]
  · intro hhit hemp
    constructor
    · rw [GreyhoundHierarchy, greyhoundHierarchyCore]
      rw [hhit]
      simp [hcyTruthy, hemp]
    · intro store2
      rw [GreyhoundHierarchy, greyhoundHierarchyCore]
      rw [hhit]
      rw [GreyhoundHierarchy, greyhoundHierarchyCore]
      rw [hhit]
      simp [hcyTruthy, hemp]
  · intro hhit hemp h' hbuild
    rw [GreyhoundHierarchy, greyhoundHierarchyCore]
    rw [hhit, hbuild]
    simp [hcyTruthy, hemp]

/-- A configuration with a root cache file configured. -/
def rootCfg : GreyhoundConfig := ⟨6, some "root.hcy"⟩

/-- A cache that holds the empty tree under every key. -/
def hitCache : HierarchyCache := fun _ => some emptyHierarchy

/-- A cache that holds a non-empty (truthy) tree under every key. -/
def fullCache : HierarchyCache := fun _ => some (Hierarchy.mk (some 3) [])

/-- A store returning, for every node query, a fixed little-endian
pcpatch with point count 2 (bytes 9-12) and payload bytes 7, 8, 9. -/
def dataStore : Store := fun _ _ =>
  .ok (some [1, 0, 0, 0, 0, 9, 0, 0, 0, 2, 0, 0, 0, 3, 0, 0, 0, 7, 8, 9])

/-- C8 counterexample: a cache entry does exist for the key (the empty
tree, which C10 shows is exactly what an empty depth range writes), yet
GreyhoundHierarchy does not return it: the truthiness test of line 175
is false on the empty dict, so the tree is rebuilt from the store (here
a 2-point patch, giving a root with n = 2) and rewritten to the cache,
and the response differs from the cached tree. -/
theorem cached_empty_tree_rebuilds :
    hitCache (hierarchyCacheKey testCfg "t" "p"
        (9 - LOADER_GREYHOUND_MIN_DEPTH)
        (GreyhoundHierarchy_lod_max testCfg 10) (transformBBox box0 1 none)) =
      some emptyHierarchy ∧
    GreyhoundHierarchy testCfg dataStore hitCache "t" "p" box0 9 10 1 none =
      .ok (Hierarchy.mk (some 2) [],
        some (hierarchyCacheKey testCfg "t" "p"
          (9 - LOADER_GREYHOUND_MIN_DEPTH)
          (GreyhoundHierarchy_lod_max testCfg 10)
          (transformBBox box0 1 none), Hierarchy.mk (some 2) [])) ∧
    Hierarchy.mk (some 2) [] ≠ emptyHierarchy := by
  refine ⟨rfl, rfl, ?_⟩
  intro h
  have hn := congrArg Hierarchy.n h
  simp [Hierarchy.n, emptyHierarchy] at hn

/-- Witness for hierarchy_cache_key_and_hit: the plain key at
depthBegin = 9 (lod_min = 1) with no root file, the root-file override
at depthBegin = 8 (lod_min = 0), a truthy cache hit returning the
cached tree, and a falsy (empty-tree) cache entry being rebuilt and
rewritten. -/
theorem hierarchy_cache_key_and_hit_witness :
    hierarchyCacheKey testCfg "t" "p" (9 - LOADER_GREYHOUND_MIN_DEPTH)
        (GreyhoundHierarchy_lod_max testCfg 20) (transformBBox box0 1 none) =
      hierarchyFilename "t" "p" (9 - LOADER_GREYHOUND_MIN_DEPTH)
        (GreyhoundHierarchy_lod_max testCfg 20) (transformBBox box0 1 none) ∧
    hierarchyCacheKey rootCfg "t" "p" (8 - LOADER_GREYHOUND_MIN_DEPTH)
        (GreyhoundHierarchy_lod_max rootCfg 20) (transformBBox box0 1 none) =
      "root.hcy" ∧
    GreyhoundHierarchy testCfg emptyStore fullCache "t" "p" box0 9 20 1 none =
      .ok (Hierarchy.mk (some 3) [], none) ∧
    GreyhoundHierarchy testCfg emptyStore hitCache "t" "p" box0 10 9 1 none =
      .ok (emptyHierarchy, some (hierarchyCacheKey testCfg "t" "p"
        (10 - LOADER_GREYHOUND_MIN_DEPTH)
        (GreyhoundHierarchy_lod_max testCfg 9)
        (transformBBox box0 1 none), emptyHierarchy)) :=
  ⟨(hierarchy_cache_key_and_hit testCfg emptyStore hitCache "t" "p" box0
      9 20 1 none emptyHierarchy).1 (by decide),
   (hierarchy_cache_key_and_hit rootCfg emptyStore hitCache "t" "p" box0
      8 20 1 none emptyHierarchy).2.2.1 "root.hcy" rfl (by decide) (by decide),
   ((hierarchy_cache_key_and_hit testCfg emptyStore fullCache "t" "p" box0
      9 20 1 none (Hierarchy.mk (some 3) [])).2.2.2.1 rfl rfl).1,
   (hierarchy_cache_key_and_hit testCfg emptyStore hitCache "t" "p" box0
      10 9 1 none emptyHierarchy).2.2.2.2 rfl rfl emptyHierarchy rfl⟩

/-- C10: whenever build_hierarchy_from_pg is called with lod > lod_max
and the root query succeeds, the result is the empty tree (no n, no
children) although that one root store query is still issued; and
GreyhoundHierarchy produces such a call whenever depthEnd <= depthBegin
(lod_min > lod_max), in which case, on a cache miss, it returns the
empty tree and writes it to the cache under the computed key. -/
theorem empty_depth_range_hierarchy (cfg : GreyhoundConfig) (store : Store)
    (cache : HierarchyCache) (table column : String) (bounds : BBox)
    (depthBegin depthEnd : ℤ) (scale : ℚ) (offset : Option (ℚ × ℚ × ℚ))
    (r : Option (List ℕ))
    (hde : depthEnd ≤ depthBegin)
    (hstore : store (transformBBox bounds scale offset)
        (depthBegin - LOADER_GREYHOUND_MIN_DEPTH) = .ok r)
    (hmiss : cache (hierarchyCacheKey cfg table column
        (depthBegin - LOADER_GREYHOUND_MIN_DEPTH)
        (GreyhoundHierarchy_lod_max cfg depthEnd)
        (transformBBox bounds scale offset)) = none) :
    (∀ (store' : Store) (lod lod_max : ℤ) (bbox : BBox)
        (r' : Option (List ℕ)),
      lod_max < lod → store' bbox lod = .ok r' →
      build_hierarchy_from_pg store' lod lod_max bbox =
        (.ok emptyHierarchy, [(bbox, lod)])) ∧
    GreyhoundHierarchy_lod_max cfg depthEnd <
      depthBegin - LOADER_GREYHOUND_MIN_DEPTH ∧
    GreyhoundHierarchy cfg store cache table column bounds depthBegin
        depthEnd scale offset =
      .ok (emptyHierarchy,
        some (hierarchyCacheKey cfg table column
          (depthBegin - LOADER_GREYHOUND_MIN_DEPTH)
          (GreyhoundHierarchy_lod_max cfg depthEnd)
          (transformBBox bounds scale offset), emptyHierarchy)) := by
  have hgen : ∀ (store' : Store) (lod lod_max : ℤ) (bbox : BBox)
      (r' : Option (List ℕ)),
      lod_max < lod → store' bbox lod = .ok r' →
      build_hierarchy_from_pg store' lod lod_max bbox =
        (.ok emptyHierarchy, [(bbox, lod)]) := by
    intro store' lod lod_max bbox r' hlt hq
    rw [build_hierarchy_from_pg, hq]
    dsimp only
    rw [if_neg (show ¬(lod + 1 ≤ lod_max) by omega),
      if_neg (show ¬(lod ≤ lod_max ∧ wkbTruthy r' = true) by
        rintro ⟨h1, _⟩; omega)]
    rfl
  have hlt : GreyhoundHierarchy_lod_max cfg depthEnd <
      depthBegin - LOADER_GREYHOUND_MIN_DEPTH := by
    unfold GreyhoundHierarchy_lod_max LOADER_GREYHOUND_MIN_DEPTH
    dsimp only
    split_ifs with h <;> omega
  refine ⟨hgen, hlt, ?_⟩
  rw [GreyhoundHierarchy, greyhoundHierarchyCore]
  rw [hmiss]
  rw [hgen store (depthBegin - LOADER_GREYHOUND_MIN_DEPTH)
    (GreyhoundHierarchy_lod_max cfg depthEnd)
    (transformBBox bounds scale offset) r hlt hstore]
  rfl

/-- Witness for empty_depth_range_hierarchy at depthBegin = 10,
depthEnd = 9 on the all-NULL store and the empty cache. -/
theorem empty_depth_range_hierarchy_witness :
    (∀ (store' : Store) (lod lod_max : ℤ) (bbox : BBox)
        (r' : Option (List ℕ)),
      lod_max < lod → store' bbox lod = .ok r' →
      build_hierarchy_from_pg store' lod lod_max bbox =
        (.ok emptyHierarchy, [(bbox, lod)])) ∧
    GreyhoundHierarchy_lod_max testCfg 9 < 10 - LOADER_GREYHOUND_MIN_DEPTH ∧
    GreyhoundHierarchy testCfg emptyStore noCache "t" "p" box0 10 9 1 none =
      .ok (emptyHierarchy,
        some (hierarchyCacheKey testCfg "t" "p"
          (10 - LOADER_GREYHOUND_MIN_DEPTH)
          (GreyhoundHierarchy_lod_max testCfg 9)
          (transformBBox box0 1 none), emptyHierarchy)) :=
  empty_depth_range_hierarchy testCfg emptyStore noCache "t" "p" box0 10 9 1
    none none (by decide) rfl rfl

/-- A point-schema dimension entry as carried in the JSON schemas of the
Read path: name, interpretation and size. -/
structure Dim where
  name : String
  interp : String
  size : ℕ
deriving DecidableEq, Repr

/-- A registered output schema of a dataset
(session.lopocstable.outputs entries): pcid, scales, offsets and the
point schema. -/
structure OutputSchema where
  pcid : ℕ
  scales : List ℚ
  offsets : List ℚ
  point_schema : List Dim
deriving DecidableEq, Repr

/-- Python sorted(schema, key=lambda x: x['name']): a stable sort by the
case-sensitive name. -/
def sortDims (ds : List Dim) : List Dim :=
  ds.mergeSort (fun a b => decide (a.name ≤ b.name))

/-- Python round(off, 2) (line 73).  Rounding of q*100 to the nearest
integer; Python rounds exact halves to even while Mathlib's round takes
the upper one, which the claims here do not depend on (they only need
round2 to be a fixed function of its input). -/
def round2 (q : ℚ) : ℚ := round (q * 100) / 100

/-- The per-output comparison of greyhound.py lines 81-82:
requested == [output['scales'], output['offsets'],
sorted(point_schema)], where requested = [scales, offsets, sorted(schema)]. -/
def outputMatches (scales offsets : List ℚ) (schema : List Dim)
    (output : OutputSchema) : Bool :=
  decide (output.scales = scales) && decide (output.offsets = offsets) &&
    decide (sortDims output.point_schema = sortDims schema)

/-- One step of the lookup loop of greyhound.py lines 80-84: a matching
output overwrites pcid and sets found (no break, so the last match
wins); a non-matching one leaves the accumulator unchanged. -/
def readFoldStep (scales offsets : List ℚ) (schema : List Dim)
    (acc : Option ℕ × Bool) (output : OutputSchema) : Option ℕ × Bool :=
  if outputMatches scales offsets schema output then (some output.pcid, true)
  else acc

/-- The schema-resolution branch of GreyhoundRead for requests carrying
scale, offset and bounds (greyhound.py lines 52-54 and 71-92): scales is
[scale]*3, the request schema is name-sorted (line 54), offsets are the
rounded offset components (line 73); the registered outputs are scanned
for an exact (scales, offsets, sorted dims) match (lines 80-84); if none
is found a new output schema is registered via add_output_schema
(modelled from the spec, database.py not being in the sources: the store
assigns the fresh pcid and the new output, carrying the requested
scales, offsets and sorted schema, is appended to the dataset's
outputs).  Returns (pcid used, outputs afterwards, whether a
registration happened). -/
def GreyhoundRead_resolve_output (outputs : List OutputSchema)
    (fresh_pcid : ℕ) (scale : ℚ) (offset : List ℚ) (schema0 : List Dim) :
    ℕ × List OutputSchema × Bool :=
  let scales := [scale, scale, scale]
  let schema := sortDims schema0
  let offsets := offset.map round2
  let found := outputs.foldl (readFoldStep scales offsets schema)
    ((none : Option ℕ), false)
  if found.2 then (found.1.getD 0, outputs, false)
  else (fresh_pcid, outputs ++ [⟨fresh_pcid, scales, offsets, schema⟩], true)

/-- The requested-triple match of the claim, in Prop form. -/
abbrev matchesRequested (scale : ℚ) (offset : List ℚ) (schema0 : List Dim)
    (output : OutputSchema) : Prop :=
  output.scales = [scale, scale, scale] ∧
  output.offsets = offset.map round2 ∧
  sortDims output.point_schema = sortDims (sortDims schema0)

lemma outputMatches_iff (scale : ℚ) (offset : List ℚ) (schema0 : List Dim)
    (output : OutputSchema) :
    outputMatches [scale, scale, scale] (offset.map round2)
        (sortDims schema0) output = true ↔
      matchesRequested scale offset schema0 output := by
  unfold outputMatches matchesRequested
  simp [Bool.and_eq_true, decide_eq_true_iff, and_assoc]

lemma readFoldl_cases (scales offsets : List ℚ) (schema : List Dim)
    (outputs : List OutputSchema) :
    (outputs.foldl (readFoldStep scales offsets schema) (none, false) =
        (none, false) ∧
      ∀ o ∈ outputs, outputMatches scales offsets schema o = false) ∨
    (∃ p, outputs.foldl (readFoldStep scales offsets schema) (none, false) =
        (some p, true) ∧
      ∃ o ∈ outputs, outputMatches scales offsets schema o = true ∧
        o.pcid = p) := by
  induction outputs using List.reverseRecOn with
  | nil => exact Or.inl ⟨rfl, by simp⟩
  | append_singleton l a ih =>
    rw [List.foldl_append]
    by_cases ha : outputMatches scales offsets schema a = true
    · refine Or.inr ⟨a.pcid, ?_, a, by simp, ha, rfl⟩
      simp [readFoldStep, ha]
    · rcases ih with ⟨heq, hall⟩ | ⟨p, heq, o, hmem, ho, hp⟩
      · refine Or.inl ⟨?_, ?_⟩
        · rw [heq]
          simp [readFoldStep, ha]
        · intro o hmem
          rcases List.mem_append.1 hmem with h | h
          · exact hall o h
          · simp only [List.mem_singleton] at h
            subst h
            exact Bool.eq_false_iff.mpr ha
      · refine Or.inr ⟨p, ?_, o, List.mem_append_left _ hmem, ho, hp⟩
        rw [heq]
        simp [readFoldStep, ha]

/-- C9: for a Read carrying scale, offset and bounds, if the dataset
already has an output whose (scales, offsets, name-sorted dimensions)
equals ([scale]*3, rounded offsets, sorted requested schema), then no
registration happens, the outputs are unchanged and a matching output's
pcid is used; a registration happens exactly on a miss; and a second
identical resolution, run on the outputs left by the first (whether it
hit or registered), never registers again and leaves the outputs
unchanged. -/
theorem read_output_schema_lookup (outputs : List OutputSchema)
    (fresh fresh2 : ℕ) (scale : ℚ) (offset : List ℚ) (schema0 : List Dim) :
    ((∃ o ∈ outputs, matchesRequested scale offset schema0 o) →
      (GreyhoundRead_resolve_output outputs fresh scale offset schema0).2.2 =
        false ∧
      (GreyhoundRead_resolve_output outputs fresh scale offset schema0).2.1 =
        outputs ∧
      ∃ o ∈ outputs, matchesRequested scale offset schema0 o ∧
        (GreyhoundRead_resolve_output outputs fresh scale offset schema0).1 =
          o.pcid) ∧
    ((¬∃ o ∈ outputs, matchesRequested scale offset schema0 o) →
      (GreyhoundRead_resolve_output outputs fresh scale offset schema0).2.2 =
        true) ∧
    ((GreyhoundRead_resolve_output
        (GreyhoundRead_resolve_output outputs fresh scale offset schema0).2.1
        fresh2 scale offset schema0).2.2 = false ∧
      (GreyhoundRead_resolve_output
        (GreyhoundRead_resolve_output outputs fresh scale offset schema0).2.1
        fresh2 scale offset schema0).2.1 =
        (GreyhoundRead_resolve_output outputs fresh scale offset
          schema0).2.1) := by
  have key : ∀ (outs : List OutputSchema) (f : ℕ),
      GreyhoundRead_resolve_output outs f scale offset schema0 =
        if (outs.foldl (readFoldStep [scale, scale, scale]
            (offset.map round2) (sortDims schema0)) (none, false)).2 then
          ((outs.foldl (readFoldStep [scale, scale, scale]
            (offset.map round2) (sortDims schema0)) (none, false)).1.getD 0,
            outs, false)
        else
          (f, outs ++ [⟨f, [scale, scale, scale], offset.map round2,
            sortDims schema0⟩], true) :=
    fun _ _ => rfl
  have hfound : ∀ (outs : List OutputSchema) (f : ℕ),
      (∃ o ∈ outs, matchesRequested scale offset schema0 o) →
      (GreyhoundRead_resolve_output outs f scale offset schema0).2.2 = false ∧
      (GreyhoundRead_resolve_output outs f scale offset schema0).2.1 = outs ∧
      ∃ o ∈ outs, matchesRequested scale offset schema0 o ∧
        (GreyhoundRead_resolve_output outs f scale offset schema0).1 =
          o.pcid := by
    intro outs f hex
    rcases readFoldl_cases [scale, scale, scale] (offset.map round2)
        (sortDims schema0) outs with ⟨heq, hall⟩ | ⟨p, heq, o, hmem, ho, hp⟩
    · obtain ⟨o, hmem, hmr⟩ := hex
      rw [← outputMatches_iff scale offset schema0 o] at hmr
      rw [hall o hmem] at hmr
      exact absurd hmr (by simp)
    · rw [key, heq]
      refine ⟨by simp, by simp, o, hmem, (outputMatches_iff _ _ _ _).1 ho,
        by simp [hp]⟩
  have hmiss : ∀ (outs : List OutputSchema) (f : ℕ),
      (¬∃ o ∈ outs, matchesRequested scale offset schema0 o) →
      (GreyhoundRead_resolve_output outs f scale offset schema0).2.2 = true ∧
      (GreyhoundRead_resolve_output outs f scale offset schema0).2.1 =
        outs ++ [⟨f, [scale, scale, scale], offset.map round2,
          sortDims schema0⟩] := by
    intro outs f hex
    rcases readFoldl_cases [scale, scale, scale] (offset.map round2)
        (sortDims schema0) outs with ⟨heq, hall⟩ | ⟨p, heq, o, hmem, ho, hp⟩
    · rw [key, heq]
      simp
    · exact absurd ⟨o, hmem, (outputMatches_iff _ _ _ _).1 ho⟩ hex
  refine ⟨hfound outputs fresh, fun hex => (hmiss outputs fresh hex).1, ?_⟩
  by_cases hex : ∃ o ∈ outputs, matchesRequested scale offset schema0 o
  · obtain ⟨h1, h2, _⟩ := hfound outputs fresh hex
    rw [h2]
    obtain ⟨h3, h4, _⟩ := hfound outputs fresh2 hex
    exact ⟨h3, h4⟩
  · obtain ⟨h1, h2⟩ := hmiss outputs fresh hex
    rw [h2]
    have hex2 : ∃ o ∈ outputs ++ [(⟨fresh, [scale, scale, scale],
        offset.map round2, sortDims schema0⟩ : OutputSchema)],
        matchesRequested scale offset schema0 o :=
      ⟨⟨fresh, [scale, scale, scale], offset.map round2, sortDims schema0⟩,
        List.mem_append_right _ (List.mem_singleton.mpr rfl),
        ⟨rfl, rfl, rfl⟩⟩
    obtain ⟨h3, h4, _⟩ := hfound _ fresh2 hex2
    exact ⟨h3, h4⟩

/-- A registered output schema with pcid 7 matching scale 1, offset
[0,0,0] and the empty dimension list. -/
def testOutput : OutputSchema := ⟨7, [1, 1, 1], [0, 0, 0], []⟩

/-- Witness for read_output_schema_lookup: a hit on a pre-registered
output (no registration, outputs unchanged, pcid 7 used), and, starting
from no outputs, a registration followed by an identical call that does
not register again. -/
theorem read_output_schema_lookup_witness :
    ((GreyhoundRead_resolve_output [testOutput] 9 1 [0, 0, 0] []).2.2 =
        false ∧
      (GreyhoundRead_resolve_output [testOutput] 9 1 [0, 0, 0] []).2.1 =
        [testOutput] ∧
      ∃ o ∈ [testOutput], matchesRequested 1 [0, 0, 0] [] o ∧
        (GreyhoundRead_resolve_output [testOutput] 9 1 [0, 0, 0] []).1 =
          o.pcid) ∧
    ((GreyhoundRead_resolve_output
        (GreyhoundRead_resolve_output [] 9 1 [0, 0, 0] []).2.1
        10 1 [0, 0, 0] []).2.2 = false ∧
      (GreyhoundRead_resolve_output
        (GreyhoundRead_resolve_output [] 9 1 [0, 0, 0] []).2.1
        10 1 [0, 0, 0] []).2.1 =
        (GreyhoundRead_resolve_output [] 9 1 [0, 0, 0] []).2.1) :=
  ⟨(read_output_schema_lookup [testOutput] 9 10 1 [0, 0, 0] []).1
      ⟨testOutput, List.mem_singleton.mpr rfl,
        ⟨rfl, by simp [testOutput, round2], by simp [testOutput, sortDims]⟩⟩,
   (read_output_schema_lookup [] 9 10 1 [0, 0, 0] []).2.2⟩
